import Mathlib

/-!
Verification of the log-cleanup scripts.

This file gives a shallow embedding of the two file transforms of the
repository, `scripts/cleanup_logs.py` (`process_file`) and
`clean_all_emoji_logs.py` (`clean_file`), and proves the documented
properties of the transforms against it.

Modelling conventions:
* a Python string is a `List Char` (Python strings are sequences of code
  points, which `Char` models exactly);
* `x in s` is `containsSub`, `s.replace(a, b)` is `pyReplace` (left-to-right,
  non-overlapping), `s.split(chr 10)` is `splitNl`, `(chr 10).join` is
  `joinNl`, `s.rstrip()` is `pyRstrip`;
* the regular expressions of the source are small enough to be compiled by
  hand into executable scans; each scan is documented next to the regex it
  embeds;
* file I/O is kept abstract: reading a file yields an `Except` value (decode
  or I/O failure on the error side), and "the file is rewritten" is modelled
  by the boolean write conditions `process_writes` / `cleanAll_writes` that
  mirror the guards around the actual `write` calls.
-/

/-! ### Generic string helpers -/

/-- Python `sub in s` (substring containment). -/
def containsSub (s sub : List Char) : Bool :=
  match s with
  | [] => sub.isEmpty
  | _ :: rest => sub.isPrefixOf s || containsSub rest sub

/-- Recursion worker for `pyReplace`.  The fuel argument only forces
structural recursion: each step consumes at least one character, so a fuel
of the string's length is always enough and the fuel-exhausted branch is
unreachable. -/
def pyReplaceAux (pat rep : List Char) : Nat → List Char → List Char
  | _, [] => []
  | 0, s => s
  | fuel + 1, c :: rest =>
    if 0 < pat.length ∧ pat.isPrefixOf (c :: rest) = true then
      rep ++ pyReplaceAux pat rep fuel ((c :: rest).drop pat.length)
    else
      c :: pyReplaceAux pat rep fuel rest

/-- Python `s.replace(pat, rep)`: replace every occurrence of `pat`, scanning
left to right, without overlap.  (Never called with an empty `pat` by the
embedded code; for an empty `pat` this returns `s` unchanged.) -/
def pyReplace (pat rep s : List Char) : List Char :=
  pyReplaceAux pat rep s.length s

/-- Python `s.split(chr 10)`.  Note `splitNl [] = [[]]`, like Python. -/
def splitNl : List Char → List (List Char)
  | [] => [[]]
  | c :: rest =>
    if c = '\n' then [] :: splitNl rest
    else
      match splitNl rest with
      | l :: ls => (c :: l) :: ls
      | [] => [[c]]

/-- Python `(chr 10).join(lines)`. -/
def joinNl : List (List Char) → List Char
  | [] => []
  | [l] => l
  | l :: ls => l ++ '\n' :: joinNl ls

/-- Python `str.isspace` for a single character (also the character set of
the regex class `\s` on `str` patterns). -/
def pyIsSpace (c : Char) : Bool :=
  decide (c = ' ' ∨ c = '\t' ∨ c = '\n' ∨ c = '\r' ∨ c = '\x0b' ∨ c = '\x0c' ∨
    (0x1c ≤ c.toNat ∧ c.toNat ≤ 0x1f) ∨ c.toNat = 0x85 ∨ c.toNat = 0xa0 ∨
    c.toNat = 0x1680 ∨ (0x2000 ≤ c.toNat ∧ c.toNat ≤ 0x200a) ∨
    c.toNat = 0x2028 ∨ c.toNat = 0x2029 ∨ c.toNat = 0x202f ∨
    c.toNat = 0x205f ∨ c.toNat = 0x3000)

/-- A character of the regex class `['"]`. -/
def isQuoteCh (c : Char) : Bool := c == '\'' || c == '"'

/-- Python `s.rstrip()`. -/
def pyRstrip (l : List Char) : List Char :=
  (l.reverse.dropWhile pyIsSpace).reverse

/-! ### `scripts/cleanup_logs.py`: the matcher (`should_remove_log`) -/

def consoleLogPat : List Char := "console.log".toList

def loggerDebugPat : List Char := "logger.debug".toList

def consoleLogOpen : List Char := "console.log(".toList

/-- A character of the class
`[\U0001F300-\U0001F9FF☀-⛿✀-➿]` of `EMOJI_PATTERN`. -/
def emojiRangeHit (c : Char) : Bool :=
  decide ((0x1F300 ≤ c.toNat ∧ c.toNat ≤ 0x1F9FF) ∨
    (0x2600 ≤ c.toNat ∧ c.toNat ≤ 0x26FF) ∨
    (0x2700 ≤ c.toNat ∧ c.toNat ≤ 0x27BF))

/-- Does `EMOJI_PATTERN`, i.e. `console\.log\([^)]*[EMOJI][^)]*\)`, match at
the head of `s`?  Equivalently: `s` starts with `console.log(`, a closing
parenthesis occurs later, and an emoji-class character occurs before the
first closing parenthesis. -/
def emojiLogAt (s : List Char) : Bool :=
  consoleLogOpen.isPrefixOf s &&
    (let after := s.drop consoleLogOpen.length
     (after.takeWhile (fun c => c != ')')).any emojiRangeHit && after.contains ')')

/-- `EMOJI_PATTERN.search(line)`: the pattern matches at some position. -/
def hasEmojiLog : List Char → Bool
  | [] => false
  | c :: rest => emojiLogAt (c :: rest) || hasEmojiLog rest

/-- The `DEBUG_KEYWORDS` list of the source. -/
def debugKeywords : List (List Char) :=
  ["DEBUG".toList, "debug".toList, "Testing".toList, "TEST".toList,
   "temp".toList, "TEMP".toList, "TODO".toList]

/-- The keyword test: `f"'{kw}" in line or f'"{kw}' in line` for some
keyword `kw`. -/
def hasDebugKeyword (s : List Char) : Bool :=
  debugKeywords.any (fun kw =>
    containsSub s ('\'' :: kw) || containsSub s ('"' :: kw))

def isSpaceDash (c : Char) : Bool := pyIsSpace c || c == '-'

/-- Does `console\.log\(['"][\s-]+['"]\)` match at the head of `s`?
Since quotes are not in the class `[\s-]`, the `+`-run is exactly the
maximal run of space/dash characters after the opening quote, and it must
be followed by a quote and a closing parenthesis. -/
def sepAt (s : List Char) : Bool :=
  consoleLogOpen.isPrefixOf s &&
    (match s.drop consoleLogOpen.length with
     | q :: rest2 =>
       isQuoteCh q &&
         (let run := rest2.takeWhile isSpaceDash
          !run.isEmpty &&
            (match rest2.drop run.length with
             | q2 :: c2 :: _ => isQuoteCh q2 && c2 == ')'
             | _ => false))
     | [] => false)

/-- `re.search` of the separator pattern. -/
def hasSeparatorLog : List Char → Bool
  | [] => false
  | c :: rest => sepAt (c :: rest) || hasSeparatorLog rest

def lowerLine (s : List Char) : List Char := s.map Char.toLower

/-- The verbose pattern list, pre-lowercased; the source searches each with
`re.IGNORECASE`, which for these all-ASCII literal patterns is a
case-insensitive substring search. -/
def verbosePats : List (List Char) :=
  ["rendering".toList, "component mounted".toList, "state updated".toList,
   "props:".toList, "data:".toList]

def hasVerbose (s : List Char) : Bool :=
  verbosePats.any (fun p => containsSub (lowerLine s) p)

/-- `should_remove_log` of `scripts/cleanup_logs.py`. -/
def should_remove_log (s : List Char) : Bool :=
  hasEmojiLog s || hasDebugKeyword s || hasSeparatorLog s || hasVerbose s

/-- `has_logger_import` of `scripts/cleanup_logs.py`. -/
def has_logger_import (c : List Char) : Bool :=
  containsSub c "from '@/lib/utils/logger'".toList ||
    containsSub c "from \"@/lib/utils/logger\"".toList

/-! ### `scripts/cleanup_logs.py`: the line loop of `process_file` -/

/-- `'console.log' in line`. -/
def lineHasConsoleLog (l : List Char) : Bool := containsSub l consoleLogPat

/-- `')' not in line` (the forward-scan guard of the multi-line capture). -/
def noCloseParen (l : List Char) : Bool := !(l.contains ')')

/-- `'(' in line and ')' not in line`: an unclosed opener. -/
def isMultiStart (l : List Char) : Bool := l.contains '(' && noCloseParen l

/-- The `full_statement` accumulated from line `i`: the opening line, the
following lines without a closing parenthesis, and (when it exists) the
first line containing one. -/
def stmtFull (l : List Char) (rest : List (List Char)) : List Char :=
  if isMultiStart l then
    joinNl (l :: (rest.takeWhile noCloseParen ++ (rest.dropWhile noCloseParen).take 1))
  else l

/-- The lines remaining after the statement starting at `l` (the loop resumes
at `i = j + 1`). -/
def stmtTail (l : List Char) (rest : List (List Char)) : List (List Char) :=
  if isMultiStart l then (rest.dropWhile noCloseParen).tail else rest

/-- Recursion worker for `processLines`; the fuel (one unit per line
consumed) only forces structural recursion and is always sufficient. -/
def processAux : Nat → List (List Char) → List (List Char) × Bool
  | _, [] => ([], false)
  | 0, ls => (ls, false)
  | fuel + 1, line :: rest =>
    if lineHasConsoleLog line then
      if should_remove_log (stmtFull line rest) then
        processAux fuel (stmtTail line rest)
      else
        (pyReplace consoleLogPat loggerDebugPat line ::
          (processAux fuel (stmtTail line rest)).1, true)
    else
      let r := processAux fuel rest
      (line :: r.1, r.2)

/-- The `while i < len(lines)` loop of `process_file`: returns `new_lines`
and the final value of `needs_logger`. -/
def processLines (ls : List (List Char)) : List (List Char) × Bool :=
  processAux ls.length ls

/-! ### `scripts/cleanup_logs.py`: import and logger-instance injection -/

/-- Occurrence scan used by `isImportLine`: does `" from '"` or
`" from \""` occur at some position of `s` with at least one further
character after it (the closing quote must lie strictly beyond the opening
one)? -/
def fromQuoteScan : List Char → Bool
  | [] => false
  | c :: rest =>
    ((" from '".toList.isPrefixOf (c :: rest) ||
      " from \"".toList.isPrefixOf (c :: rest)) &&
      decide (8 ≤ (c :: rest).length)) || fromQuoteScan rest

/-- Does the multiline regex `^import .* from ['"].*['"];?$` match this
line?  The line must start with `import` and a space, end (after stripping
one optional semicolon) with a quote, and contain an occurrence of
`" from "` plus opening quote after the 7-character prefix, with the closing
quote strictly after the opening one. -/
def isImportLine (l : List Char) : Bool :=
  "import ".toList.isPrefixOf l &&
    (let core := if l.getLast? = some ';' then l.dropLast else l
     (core.getLast? = some '\'' || core.getLast? = some '"') &&
       fromQuoteScan (core.drop 7))

/-- The injected import line (the source splices the text
`"\nimport \x7b createLogger \x7d from '@/lib/utils/logger';"` after the
last import line, which in line terms inserts this line after it). -/
def loggerImportLine : List Char :=
  "import \x7b createLogger \x7d from '@/lib/utils/logger';".toList

/-- Insert `loggerImportLine` after the last line matching `isImportLine`
(identity when no line matches; only called when one does). -/
def addImportAux : List (List Char) → List (List Char)
  | [] => []
  | l :: rest =>
    if isImportLine l && !(rest.any isImportLine) then
      l :: loggerImportLine :: rest
    else
      l :: addImportAux rest

/-- The import-insertion step: after the last import line when one exists,
else the text `"import ... ;\n\n"` is prepended, i.e. the import line and a
blank line are put in front. -/
def addLoggerImport (ls : List (List Char)) : List (List Char) :=
  if ls.any isImportLine then addImportAux ls
  else loggerImportLine :: [] :: ls

/-- Does `(const|function|class)` match at the head of `l`? -/
def declKwAt (l : List Char) : Bool :=
  "const".toList.isPrefixOf l || "function".toList.isPrefixOf l ||
    "class".toList.isPrefixOf l

/-- Does the multiline regex `^(export )?(const|function|class)` match this
line? -/
def firstCodeLine (l : List Char) : Bool :=
  declKwAt l || ("export ".toList.isPrefixOf l && declKwAt (l.drop 7))

/-- The injected logger-instance line, keyed by the file's stem. -/
def loggerInstanceLine (stem : List Char) : List Char :=
  "const logger = createLogger('".toList ++ stem ++ "');".toList

/-- Insert a blank line and `inst` before the first line matching
`firstCodeLine` (the source splices `"\nconst logger = ...;\n"` at the
match start, i.e. at that line's first character). -/
def addInstAux (inst : List Char) : List (List Char) → List (List Char)
  | [] => []
  | l :: rest =>
    if firstCodeLine l then [] :: inst :: l :: rest
    else l :: addInstAux inst rest

/-- The instance-insertion step: a silent no-op when no anchor line is
found. -/
def addLoggerInstance (inst : List Char) (ls : List (List Char)) : List (List Char) :=
  if ls.any firstCodeLine then addInstAux inst ls else ls

/-- Recursion worker for `collapse`; the fuel only forces structural
recursion and is always sufficient. -/
def collapseAux : Nat → List Char → List Char
  | _, [] => []
  | 0, s => s
  | fuel + 1, c :: rest =>
    if c = '\n' ∧ 2 ≤ (rest.takeWhile (fun x => x == '\n')).length then
      '\n' :: '\n' :: collapseAux fuel (rest.dropWhile (fun x => x == '\n'))
    else
      c :: collapseAux fuel rest

/-- `re.sub(r'\n\n\n+', '\n\n', content)`: scan left to right; at a run of
3 or more newlines, emit two newlines and continue after the (greedily
consumed) run. -/
def collapse (s : List Char) : List Char :=
  collapseAux s.length s

/-- `process_file` of `scripts/cleanup_logs.py`, as a pure function from the
file's stem and text to the new text.  Mirrors: the `'console.log' not in
content` early return, the line loop, the conditional import/instance
injection (`needs_logger and not has_logger`, the latter computed on the
original content), and the blank-line collapse. -/
def process_content (stem content : List Char) : List Char :=
  if !(containsSub content consoleLogPat) then content
  else
    let r := processLines (splitNl content)
    let ls2 :=
      if r.2 && !(has_logger_import content) then
        addLoggerInstance (loggerInstanceLine stem) (addLoggerImport r.1)
      else r.1
    collapse (joinNl ls2)

/-- The write guard of `process_file`: the file is rewritten exactly when
not in dry-run mode and the new content differs from the original. -/
def process_writes (stem content : List Char) (dryRun : Bool) : Bool :=
  !dryRun && (process_content stem content != content)

/-! ### `clean_all_emoji_logs.py`: `clean_file` -/

/-- The characters of the `EMOJI_PATTERN` class of `clean_all_emoji_logs.py`.
The source file's literal is mojibake (UTF-8 emoji bytes decoded through a
legacy code page and re-encoded), so the class the script actually compiles
consists of these 40 code points, not of emoji. -/
def cleanAllEmojiChars : List Char :=
  [Char.ofNat 0x011F, Char.ofNat 0x0178, Char.ofNat 0x0161, Char.ofNat 0x00A8,
   Char.ofNat 0x201D, Char.ofNat 0x00B4, Char.ofNat 0x00E2, Char.ofNat 0x00A0,
   Char.ofNat 0x00EF, Char.ofNat 0x00B8, Char.ofNat 0x00AC, Char.ofNat 0x2014,
   Char.ofNat 0x00BA, Char.ofNat 0x0152, Char.ofNat 0x0153, Char.ofNat 0x2026,
   Char.ofNat 0x201E, Char.ofNat 0x0160, Char.ofNat 0x00A7, Char.ofNat 0x00B9,
   Char.ofNat 0x201C, Char.ofNat 0x00AF, Char.ofNat 0x00A4, Char.ofNat 0x2013,
   Char.ofNat 0x2019, Char.ofNat 0x00BE, Char.ofNat 0x2018, Char.ofNat 0x2039,
   Char.ofNat 0x00AB, Char.ofNat 0x2020, Char.ofNat 0x00A9, Char.ofNat 0x00A5,
   Char.ofNat 0x00A1, Char.ofNat 0x00B1, Char.ofNat 0x2122, Char.ofNat 0x00B7,
   Char.ofNat 0x00AD, Char.ofNat 0x20AC, Char.ofNat 0x203A, Char.ofNat 0x00B0]

/-- `re.search(r'console\.(log|error|warn)\(', line)`. -/
def hasConsoleCall (l : List Char) : Bool :=
  containsSub l "console.log(".toList || containsSub l "console.error(".toList ||
    containsSub l "console.warn(".toList

/-- `re.search(EMOJI_PATTERN, line)`. -/
def lineEmojiAll (l : List Char) : Bool := l.any cleanAllEmojiChars.contains

/-- The removal test of `clean_file`: a console statement containing a
pattern-class character. -/
def cleanTarget (l : List Char) : Bool := hasConsoleCall l && lineEmojiAll l

/-- `line.rstrip().endswith(');') or line.rstrip().endswith(')')`. -/
def endsClosed (l : List Char) : Bool :=
  ");".toList.isSuffixOf (pyRstrip l) || ")".toList.isSuffixOf (pyRstrip l)

/-- `');' in lines[j] or ')' in lines[j]` (the forward scan for the end of a
multi-line statement). -/
def lineHasClose2 (l : List Char) : Bool :=
  containsSub l ");".toList || l.contains ')'

def markerLine : List Char := "__REMOVE__".toList

/-- The `for i, line in enumerate(lines)` loop of `clean_file`, including
the in-place marking of swallowed lines with the literal `__REMOVE__`
(which subsequent iterations then append unchanged, to be filtered at the
end).  The dead `skip_next` flag of the source (never set to `True`) is
omitted.  When a multi-line statement is detected, its opening line is
skipped via `continue` and the following lines up to and including the
first with a closing parenthesis are overwritten by the marker. -/
def cleanAllAux : Nat → List (List Char) → List (List Char)
  | _, [] => []
  | 0, ls => ls
  | fuel + 1, line :: rest =>
    if cleanTarget line then
      if endsClosed line then cleanAllAux fuel rest
      else
        if (rest.dropWhile (fun l2 => !(lineHasClose2 l2))).isEmpty then
          cleanAllAux fuel rest
        else
          cleanAllAux fuel
            (List.replicate ((rest.takeWhile (fun l2 => !(lineHasClose2 l2))).length + 1) markerLine ++
              (rest.dropWhile (fun l2 => !(lineHasClose2 l2))).tail)
    else
      line :: cleanAllAux fuel rest

/-- The loop with its structural-recursion fuel applied (each step consumes
at least one line, so the line count is always enough fuel). -/
def cleanAllLoop (ls : List (List Char)) : List (List Char) :=
  cleanAllAux ls.length ls

/-- `cleaned_lines` after the final marker filter. -/
def cleanAllVisible (ls : List (List Char)) : List (List Char) :=
  (cleanAllLoop ls).filter (fun l => l != markerLine)

/-- `clean_file` of `clean_all_emoji_logs.py` as a pure text transform. -/
def cleanAll_content (c : List Char) : List Char :=
  joinNl (cleanAllVisible (splitNl c))

/-- The write guard of `clean_file`: rewrite exactly when the new content
differs. -/
def cleanAll_writes (c : List Char) : Bool := cleanAll_content c != c

/-! ### The per-file driver and its error handling -/

/-- The message printed by the per-file exception handler
(`f"Error processing (path): (e)"`). -/
def errorLineFor (path msg : List Char) : List Char :=
  "Error processing ".toList ++ path ++ ": ".toList ++ msg

/-- The outcome of attempting one file: either the transformed content, or
the printed error line. -/
inductive FileOutcome where
  | done (newContent : List Char)
  | failed (printed : List Char)
deriving DecidableEq

/-- Attempting one file.  Reading/decoding is abstracted as an `Except`
value; the `try`/`except` of the source turns the error into a printed
message carrying the path and never re-raises. -/
def runCleanFile : List Char × Except (List Char) (List Char) → FileOutcome
  | (_, Except.ok content) => FileOutcome.done (cleanAll_content content)
  | (path, Except.error e) => FileOutcome.failed (errorLineFor path e)

/-- The driver loop: every discovered file is attempted, in order, each
inside its own exception guard. -/
def runAll (files : List (List Char × Except (List Char) (List Char))) :
    List FileOutcome :=
  files.map runCleanFile

/-! ### Fuel irrelevance and unfolding equations for the loop workers -/

theorem pyReplaceAux_fuel (pat rep : List Char) :
    ∀ f1 f2 s, s.length ≤ f1 → s.length ≤ f2 →
      pyReplaceAux pat rep f1 s = pyReplaceAux pat rep f2 s := by
  intro f1
  induction f1 with
  | zero =>
    intro f2 s h1 _h2
    have hs : s = [] := List.length_eq_zero.mp (Nat.le_zero.mp h1)
    subst hs
    cases f2 <;> rfl
  | succ f ih =>
    intro f2 s h1 h2
    cases s with
    | nil => cases f2 <;> rfl
    | cons c rest =>
      cases f2 with
      | zero => simp at h2
      | succ f2' =>
        simp only [pyReplaceAux]
        by_cases hc : (0 < pat.length ∧ pat.isPrefixOf (c :: rest) = true)
        · rw [if_pos hc, if_pos hc]
          have hd : ((c :: rest).drop pat.length).length ≤ f := by
            simp only [List.length_drop, List.length_cons]
            simp only [List.length_cons] at h1
            omega
          have hd2 : ((c :: rest).drop pat.length).length ≤ f2' := by
            simp only [List.length_drop, List.length_cons]
            simp only [List.length_cons] at h2
            omega
          rw [ih f2' _ hd hd2]
        · rw [if_neg hc, if_neg hc]
          have hr : rest.length ≤ f := by
            simp only [List.length_cons] at h1
            omega
          have hr2 : rest.length ≤ f2' := by
            simp only [List.length_cons] at h2
            omega
          rw [ih f2' _ hr hr2]

/-- Unfolding equation for `pyReplace` at a nonempty string. -/
theorem pyReplace_cons (pat rep : List Char) (c : Char) (rest : List Char) :
    pyReplace pat rep (c :: rest) =
      if 0 < pat.length ∧ pat.isPrefixOf (c :: rest) = true then
        rep ++ pyReplace pat rep ((c :: rest).drop pat.length)
      else
        c :: pyReplace pat rep rest := by
  show pyReplaceAux pat rep (c :: rest).length (c :: rest) = _
  simp only [List.length_cons, pyReplaceAux]
  by_cases hc : (0 < pat.length ∧ pat.isPrefixOf (c :: rest) = true)
  · rw [if_pos hc, if_pos hc]
    rw [pyReplaceAux_fuel pat rep rest.length ((c :: rest).drop pat.length).length]
    · rfl
    · simp only [List.length_drop, List.length_cons]
      omega
    · exact Nat.le_refl _
  · rw [if_neg hc, if_neg hc]
    rfl

theorem stmtTail_length_le (l : List Char) (rest : List (List Char)) :
    (stmtTail l rest).length ≤ rest.length := by
  unfold stmtTail
  split
  · have h1 : ((rest.dropWhile noCloseParen).tail).length ≤ (rest.dropWhile noCloseParen).length := by
      cases rest.dropWhile noCloseParen <;> simp
    have h2 : (rest.dropWhile noCloseParen).length ≤ rest.length :=
      (List.dropWhile_sublist noCloseParen).length_le
    omega
  · exact Nat.le_refl _

theorem processAux_fuel :
    ∀ f1 f2 ls, ls.length ≤ f1 → ls.length ≤ f2 →
      processAux f1 ls = processAux f2 ls := by
  intro f1
  induction f1 with
  | zero =>
    intro f2 ls h1 _h2
    have hs : ls = [] := List.length_eq_zero.mp (Nat.le_zero.mp h1)
    subst hs
    cases f2 <;> rfl
  | succ f ih =>
    intro f2 ls h1 h2
    cases ls with
    | nil => cases f2 <;> rfl
    | cons line rest =>
      cases f2 with
      | zero => simp at h2
      | succ f2' =>
        simp only [List.length_cons] at h1 h2
        have hrest : rest.length ≤ f := by omega
        have hrest2 : rest.length ≤ f2' := by omega
        have htail : (stmtTail line rest).length ≤ f :=
          Nat.le_trans (stmtTail_length_le line rest) hrest
        have htail2 : (stmtTail line rest).length ≤ f2' :=
          Nat.le_trans (stmtTail_length_le line rest) hrest2
        simp only [processAux]
        rw [ih f2' rest hrest hrest2, ih f2' (stmtTail line rest) htail htail2]

/-- Unfolding equation for `processLines` at a nonempty line list. -/
theorem processLines_cons (l : List Char) (rest : List (List Char)) :
    processLines (l :: rest) =
      if lineHasConsoleLog l = true then
        if should_remove_log (stmtFull l rest) = true then
          processLines (stmtTail l rest)
        else
          (pyReplace consoleLogPat loggerDebugPat l ::
            (processLines (stmtTail l rest)).1, true)
      else
        (l :: (processLines rest).1, (processLines rest).2) := by
  show processAux (l :: rest).length (l :: rest) = _
  simp only [List.length_cons, processAux]
  rw [processAux_fuel rest.length (stmtTail l rest).length (stmtTail l rest)
      (stmtTail_length_le l rest) (Nat.le_refl _),
    processAux_fuel rest.length rest.length rest (Nat.le_refl _) (Nat.le_refl _)]
  rfl

theorem collapseAux_fuel :
    ∀ f1 f2 s, s.length ≤ f1 → s.length ≤ f2 →
      collapseAux f1 s = collapseAux f2 s := by
  intro f1
  induction f1 with
  | zero =>
    intro f2 s h1 _h2
    have hs : s = [] := List.length_eq_zero.mp (Nat.le_zero.mp h1)
    subst hs
    cases f2 <;> rfl
  | succ f ih =>
    intro f2 s h1 h2
    cases s with
    | nil => cases f2 <;> rfl
    | cons c rest =>
      cases f2 with
      | zero => simp at h2
      | succ f2' =>
        simp only [List.length_cons] at h1 h2
        have hrest : rest.length ≤ f := by omega
        have hrest2 : rest.length ≤ f2' := by omega
        have hdw : (rest.dropWhile (fun x => x == '\n')).length ≤ rest.length :=
          (List.dropWhile_sublist _).length_le
        simp only [collapseAux]
        rw [ih f2' rest hrest hrest2,
          ih f2' (rest.dropWhile (fun x => x == '\n'))
            (Nat.le_trans hdw hrest) (Nat.le_trans hdw hrest2)]

/-- Unfolding equation for `collapse` at a nonempty string. -/
theorem collapse_cons (c : Char) (rest : List Char) :
    collapse (c :: rest) =
      if c = '\n' ∧ 2 ≤ (rest.takeWhile (fun x => x == '\n')).length then
        '\n' :: '\n' :: collapse (rest.dropWhile (fun x => x == '\n'))
      else
        c :: collapse rest := by
  show collapseAux (c :: rest).length (c :: rest) = _
  simp only [List.length_cons, collapseAux]
  rw [collapseAux_fuel rest.length (rest.dropWhile (fun x => x == '\n')).length
      (rest.dropWhile (fun x => x == '\n'))
      ((List.dropWhile_sublist _).length_le) (Nat.le_refl _)]
  rfl

theorem cleanAllAux_fuel :
    ∀ f1 f2 ls, ls.length ≤ f1 → ls.length ≤ f2 →
      cleanAllAux f1 ls = cleanAllAux f2 ls := by
  intro f1
  induction f1 with
  | zero =>
    intro f2 ls h1 _h2
    have hs : ls = [] := List.length_eq_zero.mp (Nat.le_zero.mp h1)
    subst hs
    cases f2 <;> rfl
  | succ f ih =>
    intro f2 ls h1 h2
    cases ls with
    | nil => cases f2 <;> rfl
    | cons line rest =>
      cases f2 with
      | zero => simp at h2
      | succ f2' =>
        simp only [List.length_cons] at h1 h2
        have hrest : rest.length ≤ f := by omega
        have hrest2 : rest.length ≤ f2' := by omega
        simp only [cleanAllAux]
        by_cases h3 : cleanTarget line = true
        · by_cases h4 : endsClosed line = true
          · rw [if_pos h3, if_pos h3, if_pos h4, if_pos h4, ih f2' rest hrest hrest2]
          · by_cases h5 : (rest.dropWhile (fun l2 => !(lineHasClose2 l2))).isEmpty = true
            · rw [if_pos h3, if_pos h3, if_neg h4, if_neg h4, if_pos h5, if_pos h5,
                ih f2' rest hrest hrest2]
            · have hne : (rest.dropWhile (fun l2 => !(lineHasClose2 l2))) ≠ [] := by
                intro h0
                rw [h0] at h5
                simp at h5
              have hpos : 0 < (rest.dropWhile (fun l2 => !(lineHasClose2 l2))).length :=
                List.length_pos.mpr hne
              have htd := congrArg List.length
                (List.takeWhile_append_dropWhile (fun l2 => !(lineHasClose2 l2)) rest)
              rw [List.length_append] at htd
              have ht : ((rest.dropWhile (fun l2 => !(lineHasClose2 l2))).tail).length =
                  (rest.dropWhile (fun l2 => !(lineHasClose2 l2))).length - 1 :=
                List.length_tail _
              have hmark :
                  (List.replicate ((rest.takeWhile (fun l2 => !(lineHasClose2 l2))).length + 1) markerLine ++
                    (rest.dropWhile (fun l2 => !(lineHasClose2 l2))).tail).length ≤ rest.length := by
                simp only [List.length_append, List.length_replicate, ht]
                omega
              rw [if_pos h3, if_pos h3, if_neg h4, if_neg h4, if_neg h5, if_neg h5,
                ih f2' _ (Nat.le_trans hmark hrest) (Nat.le_trans hmark hrest2)]
        · rw [if_neg h3, if_neg h3, ih f2' rest hrest hrest2]

/-- Unfolding equation for `cleanAllLoop` at a nonempty line list. -/
theorem cleanAllLoop_cons (l : List Char) (rest : List (List Char)) :
    cleanAllLoop (l :: rest) =
      if cleanTarget l = true then
        if endsClosed l = true then cleanAllLoop rest
        else
          if (rest.dropWhile (fun l2 => !(lineHasClose2 l2))).isEmpty then
            cleanAllLoop rest
          else
            cleanAllLoop
              (List.replicate ((rest.takeWhile (fun l2 => !(lineHasClose2 l2))).length + 1) markerLine ++
                (rest.dropWhile (fun l2 => !(lineHasClose2 l2))).tail)
      else
        l :: cleanAllLoop rest := by
  show cleanAllAux (l :: rest).length (l :: rest) = _
  simp only [List.length_cons, cleanAllAux]
  by_cases h3 : cleanTarget l = true
  · by_cases h4 : endsClosed l = true
    · rw [if_pos h3, if_pos h3, if_pos h4, if_pos h4]
      rfl
    · by_cases h5 : (rest.dropWhile (fun l2 => !(lineHasClose2 l2))).isEmpty = true
      · rw [if_pos h3, if_pos h3, if_neg h4, if_neg h4, if_pos h5, if_pos h5]
        rfl
      · have hne : (rest.dropWhile (fun l2 => !(lineHasClose2 l2))) ≠ [] := by
          intro h0
          rw [h0] at h5
          simp at h5
        have hpos : 0 < (rest.dropWhile (fun l2 => !(lineHasClose2 l2))).length :=
          List.length_pos.mpr hne
        have htd := congrArg List.length
          (List.takeWhile_append_dropWhile (fun l2 => !(lineHasClose2 l2)) rest)
        rw [List.length_append] at htd
        have ht : ((rest.dropWhile (fun l2 => !(lineHasClose2 l2))).tail).length =
            (rest.dropWhile (fun l2 => !(lineHasClose2 l2))).length - 1 :=
          List.length_tail _
        have hmark :
            (List.replicate ((rest.takeWhile (fun l2 => !(lineHasClose2 l2))).length + 1) markerLine ++
              (rest.dropWhile (fun l2 => !(lineHasClose2 l2))).tail).length ≤ rest.length := by
          simp only [List.length_append, List.length_replicate, ht]
          omega
        rw [if_pos h3, if_pos h3, if_neg h4, if_neg h4, if_neg h5, if_neg h5]
        exact cleanAllAux_fuel rest.length _ _ hmark (Nat.le_refl _)
  · rw [if_neg h3, if_neg h3]
    rfl

/-! ### Generic lemmas about the string helpers -/

theorem isPrefixOf_append_self (p x : List Char) : p.isPrefixOf (p ++ x) = true := by
  induction p with
  | nil => cases x <;> rfl
  | cons c rest ih => simp [List.isPrefixOf, ih]

/-- A planted occurrence makes `containsSub` true. -/
theorem containsSub_middle (a p b : List Char) : containsSub (a ++ (p ++ b)) p = true := by
  induction a with
  | nil =>
    cases hpb : p ++ b with
    | nil =>
      have hp : p = [] := by
        cases p with
        | nil => rfl
        | cons c r => simp at hpb
      subst hp
      rfl
    | cons c r =>
      simp only [containsSub]
      rw [← hpb]
      simp only [List.nil_append]
      rw [isPrefixOf_append_self]
      simp
  | cons c rest ih =>
    simp only [List.cons_append, containsSub, List.append_eq]
    rw [ih]
    simp

/-- `takeWhile`/`dropWhile` through a list whose first block satisfies the
predicate and whose next element does not. -/
theorem takeWhile_middle {α : Type} (p : α → Bool) (pre : List α) (c : α) (r : List α)
    (h : ∀ x ∈ pre, p x = true) (hc : p c = false) :
    (pre ++ c :: r).takeWhile p = pre ∧ (pre ++ c :: r).dropWhile p = c :: r := by
  induction pre with
  | nil => simp [List.takeWhile, List.dropWhile, hc]
  | cons a rest ih =>
    have ha : p a = true := h a (by simp)
    have hrest : ∀ x ∈ rest, p x = true := fun x hx => h x (by simp [hx])
    obtain ⟨ih1, ih2⟩ := ih hrest
    constructor
    · simp only [List.cons_append, List.takeWhile, ha, List.append_eq, ih1]
    · simp only [List.cons_append, List.dropWhile, ha, List.append_eq, ih2]

theorem splitNl_ne_nil (s : List Char) : splitNl s ≠ [] := by
  induction s with
  | nil => simp [splitNl]
  | cons c rest ih =>
    simp only [splitNl]
    split
    · simp
    · cases h : splitNl rest with
      | nil => simp
      | cons l ls => simp

/-- Rebuilding the split lines gives back the original text. -/
theorem joinNl_splitNl (s : List Char) : joinNl (splitNl s) = s := by
  induction s with
  | nil => rfl
  | cons c rest ih =>
    simp only [splitNl]
    by_cases hc : c = '\n'
    · rw [if_pos hc]
      cases h : splitNl rest with
      | nil => exact absurd h (splitNl_ne_nil rest)
      | cons l ls =>
        rw [h] at ih
        subst hc
        simp only [joinNl]
        cases ls with
        | nil => simp only [joinNl] at ih ⊢; simp [ih]
        | cons l2 ls2 => simp only [joinNl] at ih ⊢; simp [ih]
    · rw [if_neg hc]
      cases h : splitNl rest with
      | nil => exact absurd h (splitNl_ne_nil rest)
      | cons l ls =>
        rw [h] at ih
        cases ls with
        | nil => simp only [joinNl] at ih ⊢; simp [ih]
        | cons l2 ls2 =>
          simp only [joinNl] at ih ⊢
          simp [ih]

/-! ### Occurrence lemmas for `pyReplace` -/

/-- Scanning past a block `u` in which no occurrence of `pat` starts (also
none reaching into the continuation `t`) copies `u` verbatim. -/
theorem pyReplace_append_of_no_hit (pat rep u t : List Char)
    (h : ∀ k, k < u.length → pat.isPrefixOf (u.drop k ++ t) = false) :
    pyReplace pat rep (u ++ t) = u ++ pyReplace pat rep t := by
  induction u with
  | nil => simp
  | cons c u' ih =>
    rw [List.cons_append, pyReplace_cons]
    have h0 : pat.isPrefixOf (c :: (u' ++ t)) = false := by
      have h1 := h 0 (by simp)
      simpa using h1
    have hcond : ¬(0 < pat.length ∧ pat.isPrefixOf (c :: (u' ++ t)) = true) := by
      intro hc
      rw [h0] at hc
      exact Bool.false_ne_true hc.2
    rw [if_neg hcond, ih (fun k hk => h (k + 1) (Nat.succ_lt_succ hk))]
    rfl

/-- A string with no occurrence of `pat` is left unchanged. -/
theorem pyReplace_of_no_hit (pat rep w : List Char)
    (h : ∀ k, k < w.length → pat.isPrefixOf (w.drop k) = false) :
    pyReplace pat rep w = w := by
  have h2 := pyReplace_append_of_no_hit pat rep w []
    (by intro k hk; simpa using h k hk)
  have h0 : pyReplace pat rep ([] : List Char) = [] := rfl
  rw [List.append_nil, h0, List.append_nil] at h2
  exact h2

/-- An occurrence of `pat` at the head is replaced and scanning resumes
after it. -/
theorem pyReplace_hit (pat rep v : List Char) (hp : 0 < pat.length) :
    pyReplace pat rep (pat ++ v) = rep ++ pyReplace pat rep v := by
  obtain ⟨pc, pr, hpat⟩ := List.exists_cons_of_ne_nil (List.length_pos.mp hp)
  subst hpat
  rw [List.cons_append, pyReplace_cons]
  have hpre : (pc :: pr).isPrefixOf (pc :: (pr ++ v)) = true := by
    have h1 := isPrefixOf_append_self (pc :: pr) v
    simp only [List.cons_append] at h1
    exact h1
  rw [if_pos ⟨hp, hpre⟩]
  congr 1
  rw [← List.cons_append, List.drop_left]

/-! ### Marker lemmas for the clean-all loop -/

theorem cleanTarget_markerLine : cleanTarget markerLine = false := by decide

/-- A line that is not an emoji console statement is copied through the
loop. -/
theorem cleanAllLoop_keep (l : List Char) (rest : List (List Char))
    (h1 : cleanTarget l = false) :
    cleanAllLoop (l :: rest) = l :: cleanAllLoop rest := by
  rw [cleanAllLoop_cons, if_neg (by simp [h1])]

/-- Marker lines put in front of the worklist pass through the loop and are
removed by the final filter. -/
theorem cleanAllVisible_replicate (n : Nat) (xs : List (List Char)) :
    cleanAllVisible (List.replicate n markerLine ++ xs) = cleanAllVisible xs := by
  induction n with
  | zero => simp
  | succ k ih =>
    rw [List.replicate_succ, List.cons_append]
    unfold cleanAllVisible
    rw [cleanAllLoop_keep markerLine _ cleanTarget_markerLine]
    rw [List.filter_cons]
    simp only [bne_self_eq_false, Bool.false_eq_true, if_false]
    exact ih

/-- A kept line also survives the marker filter when it is not itself the
literal marker. -/
theorem cleanAllVisible_keep (l : List Char) (rest : List (List Char))
    (h1 : cleanTarget l = false) (h2 : (l == markerLine) = false) :
    cleanAllVisible (l :: rest) = l :: cleanAllVisible rest := by
  unfold cleanAllVisible
  rw [cleanAllLoop_keep l rest h1, List.filter_cons]
  simp only [bne, h2, Bool.not_false, if_true]

/-! ### Run lemmas for the blank-line collapse -/

theorem head_not_nl (b : List Char) (hb : b.head? ≠ some '\n') :
    b.takeWhile (fun x => x == '\n') = [] ∧ b.dropWhile (fun x => x == '\n') = b := by
  cases b with
  | nil => simp
  | cons c r =>
    have hc : (c == '\n') = false := by
      simp only [List.head?, ne_eq, Option.some.injEq] at hb
      simpa using hb
    simp [List.takeWhile_cons, List.dropWhile_cons, hc]

theorem takeWhile_nl_replicate (k : Nat) (b : List Char) (hb : b.head? ≠ some '\n') :
    (List.replicate k '\n' ++ b).takeWhile (fun x => x == '\n') = List.replicate k '\n' ∧
    (List.replicate k '\n' ++ b).dropWhile (fun x => x == '\n') = b := by
  induction k with
  | zero => simpa using head_not_nl b hb
  | succ n ih =>
    rw [List.replicate_succ, List.cons_append]
    obtain ⟨ih1, ih2⟩ := ih
    constructor
    · rw [List.takeWhile_cons]
      simp only [beq_self_eq_true, if_true, ih1, List.replicate_succ]
    · rw [List.dropWhile_cons]
      simp only [beq_self_eq_true, if_true, ih2]

/-- `collapse` on a leading newline run followed by text not starting with a
newline: a run of three or more newlines becomes two, shorter runs are
copied. -/
theorem collapse_replicate_append (k : Nat) (b : List Char) (hb : b.head? ≠ some '\n') :
    collapse (List.replicate k '\n' ++ b) =
      List.replicate (if 3 ≤ k then 2 else k) '\n' ++ collapse b := by
  obtain ⟨htb, hdb⟩ := head_not_nl b hb
  match k with
  | 0 => simp
  | 1 =>
    simp only [List.replicate_succ, List.replicate_zero, List.cons_append, List.nil_append]
    rw [collapse_cons]
    rw [if_neg (by rw [htb]; simp)]
    simp
  | 2 =>
    simp only [List.replicate_succ, List.replicate_zero, List.cons_append, List.nil_append]
    rw [collapse_cons]
    have h1 : (('\n' :: b).takeWhile fun x => x == '\n') = ['\n'] := by
      rw [List.takeWhile_cons]
      simp [htb]
    rw [if_neg (by rw [h1]; simp)]
    rw [collapse_cons]
    rw [if_neg (by rw [htb]; simp)]
    simp
  | (n + 3) =>
    obtain ⟨ht2, hd2⟩ := takeWhile_nl_replicate (n + 2) b hb
    rw [show List.replicate (n + 3) '\n' = '\n' :: List.replicate (n + 2) '\n' from rfl,
      List.cons_append, collapse_cons]
    rw [if_pos ⟨rfl, by rw [ht2]; simp [List.length_replicate]⟩]
    rw [hd2]
    rw [if_pos (by omega)]
    rfl

/-- `takeWhile`/`dropWhile` of a newline scan do not cross the end of a
block whose last character is not a newline. -/
theorem takeWhile_nl_append (a X : List Char) (hne : a ≠ [])
    (hlast : a.getLast? ≠ some '\n') :
    (a ++ X).takeWhile (fun x => x == '\n') = a.takeWhile (fun x => x == '\n') ∧
    (a ++ X).dropWhile (fun x => x == '\n') = a.dropWhile (fun x => x == '\n') ++ X := by
  induction a with
  | nil => exact absurd rfl hne
  | cons c a' ih =>
    cases a' with
    | nil =>
      have hc : (c == '\n') = false := by
        simp only [List.getLast?_singleton, ne_eq, Option.some.injEq] at hlast
        simpa using hlast
      simp [List.takeWhile_cons, List.dropWhile_cons, hc]
    | cons d a'' =>
      have hlast' : (d :: a'').getLast? ≠ some '\n' := by
        rw [List.getLast?_cons_cons] at hlast
        exact hlast
      obtain ⟨ih1, ih2⟩ := ih (by simp) hlast'
      by_cases hc : (c == '\n') = true
      · constructor
        · rw [List.cons_append, List.takeWhile_cons, List.takeWhile_cons, hc]
          simp only [if_true, ih1]
        · rw [List.cons_append, List.dropWhile_cons, List.dropWhile_cons, hc]
          simp only [if_true, ih2]
      · have hc' : (c == '\n') = false := by simpa using hc
        constructor
        · rw [List.cons_append, List.takeWhile_cons, List.takeWhile_cons, hc']
          simp
        · rw [List.cons_append, List.dropWhile_cons, List.dropWhile_cons, hc']
          simp

/-- If dropping the leading newlines of a nonempty block with non-newline
last character empties it, that contradicts the last character. -/
theorem dropWhile_nl_ne_nil (a : List Char) (hne : a ≠ [])
    (hlast : a.getLast? ≠ some '\n') :
    a.dropWhile (fun x => x == '\n') ≠ [] := by
  intro h0
  have hall : ∀ x ∈ a, (fun x => x == '\n') x = true :=
    fun x hx => List.dropWhile_eq_nil_iff.mp h0 x hx
  have hmem : a.getLast hne ∈ a := List.getLast_mem hne
  have HL : a.getLast hne = '\n' := by
    have := hall _ hmem
    simpa using this
  rw [List.getLast?_eq_getLast a hne] at hlast
  rw [HL] at hlast
  simp at hlast

/-- The suffix after the leading newline run keeps the last character. -/
theorem dropWhile_nl_getLast (a : List Char) (hne : a ≠ [])
    (hlast : a.getLast? ≠ some '\n') :
    (a.dropWhile (fun x => x == '\n')).getLast? = a.getLast? := by
  have hsplit := List.takeWhile_append_dropWhile (fun x => x == '\n') a
  conv_rhs => rw [← hsplit]
  rw [List.getLast?_append_of_ne_nil]
  exact dropWhile_nl_ne_nil a hne hlast

/-- Claim C4 (amended): in the collapse step, a maximal run of `k`
newline characters lying between a block not ending in a newline and a block
not starting with one becomes exactly 2 newlines when `k ≥ 3` (i.e. 2 or
more blank lines become exactly 1) and is copied unchanged when `k ≤ 2`;
the surrounding blocks are collapsed independently. -/
theorem c4_blank_run_collapse (a b : List Char) (k : Nat)
    (ha : a.getLast? ≠ some '\n') (hb : b.head? ≠ some '\n') :
    collapse (a ++ List.replicate k '\n' ++ b) =
      collapse a ++ List.replicate (if 3 ≤ k then 2 else k) '\n' ++ collapse b := by
  suffices H : ∀ n (a : List Char), a.length ≤ n → a.getLast? ≠ some '\n' →
      collapse (a ++ List.replicate k '\n' ++ b) =
        collapse a ++ List.replicate (if 3 ≤ k then 2 else k) '\n' ++ collapse b by
    exact H a.length a (Nat.le_refl _) ha
  intro n
  induction n with
  | zero =>
    intro a hlen _ha2
    have h0 : a = [] := List.length_eq_zero.mp (Nat.le_zero.mp hlen)
    subst h0
    simpa using collapse_replicate_append k b hb
  | succ m ih =>
    intro a hlen ha2
    cases a with
    | nil => simpa using collapse_replicate_append k b hb
    | cons c a' =>
      cases a' with
      | nil =>
        have hc : (c == '\n') = false := by
          simp only [List.getLast?_singleton, ne_eq, Option.some.injEq] at ha2
          simpa using ha2
        have hcp : ¬(c = '\n') := by simpa using hc
        have hshape : ([c] : List Char) ++ List.replicate k '\n' ++ b =
            c :: (List.replicate k '\n' ++ b) := by simp
        rw [hshape, collapse_cons, if_neg (fun hcc => hcp hcc.1)]
        rw [collapse_replicate_append k b hb]
        have h1 : collapse [c] = [c] := by
          rw [show ([c] : List Char) = c :: [] from rfl, collapse_cons,
            if_neg (fun hcc => hcp hcc.1)]
          rfl
        rw [h1]
        simp
      | cons d a'' =>
        have hlast' : (d :: a'').getLast? ≠ some '\n' := by
          rw [List.getLast?_cons_cons] at ha2
          exact ha2
        obtain ⟨ht, hd⟩ := takeWhile_nl_append (d :: a'')
          (List.replicate k '\n' ++ b) (by simp) hlast'
        have hshape : (c :: d :: a'') ++ List.replicate k '\n' ++ b =
            c :: ((d :: a'') ++ (List.replicate k '\n' ++ b)) := by simp
        rw [hshape, collapse_cons]
        by_cases hC : (c = '\n' ∧
            2 ≤ (((d :: a'') ++ (List.replicate k '\n' ++ b)).takeWhile (fun x => x == '\n')).length)
        · rw [if_pos hC, hd]
          have hz2ne : (d :: a'').dropWhile (fun x => x == '\n') ≠ [] :=
            dropWhile_nl_ne_nil _ (by simp) hlast'
          have hz2last : ((d :: a'').dropWhile (fun x => x == '\n')).getLast? ≠ some '\n' := by
            rw [dropWhile_nl_getLast _ (by simp) hlast']
            exact hlast'
          have hz2len : ((d :: a'').dropWhile (fun x => x == '\n')).length ≤ m := by
            have h3 : ((d :: a'').dropWhile (fun x => x == '\n')).length ≤ (d :: a'').length :=
              (List.dropWhile_sublist _).length_le
            simp only [List.length_cons] at hlen h3 ⊢
            omega
          have hrec := ih ((d :: a'').dropWhile (fun x => x == '\n')) hz2len hz2last
          rw [show (d :: a'').dropWhile (fun x => x == '\n') ++ (List.replicate k '\n' ++ b) =
              (d :: a'').dropWhile (fun x => x == '\n') ++ List.replicate k '\n' ++ b by simp]
          rw [hrec]
          have hC' : (c = '\n' ∧
              2 ≤ ((d :: a'').takeWhile (fun x => x == '\n')).length) := by
            obtain ⟨h1, h2⟩ := hC
            rw [ht] at h2
            exact ⟨h1, h2⟩
          rw [show ((c :: d :: a'' : List Char)) = c :: (d :: a'') from rfl, collapse_cons,
            if_pos hC']
          simp
        · rw [if_neg hC]
          have hC'' : ¬(c = '\n' ∧
              2 ≤ ((d :: a'').takeWhile (fun x => x == '\n')).length) := by
            intro hcc
            exact hC ⟨hcc.1, by rw [ht]; exact hcc.2⟩
          have hrec := ih (d :: a'')
            (by simp only [List.length_cons] at hlen ⊢; omega) hlast'
          rw [show (d :: a'') ++ (List.replicate k '\n' ++ b) =
              (d :: a'') ++ List.replicate k '\n' ++ b by simp]
          have hcoll : collapse (c :: (d :: a'')) = c :: collapse (d :: a'') := by
            rw [collapse_cons, if_neg hC'']
          rw [hrec, hcoll]
          simp

/-! ### Claim theorems -/

/-- Claim C1: the file transform of `scripts/cleanup_logs.py` is not
idempotent.  On the one-line file `console.console.loglog` the first
application substitutes the single occurrence of `console.log`, but the
substitution re-creates the substring `console.log` across the seam
(`console.` + `logger.debug...`), so a second application rewrites the file
again instead of leaving it unchanged. -/
theorem c1_not_idempotent :
    process_content ("App".toList)
        (process_content ("App".toList) ("console.console.loglog".toList)) ≠
      process_content ("App".toList) ("console.console.loglog".toList) ∧
    process_content ("App".toList) ("console.console.loglog".toList) =
      ("import \x7b createLogger \x7d from '@/lib/utils/logger';\n\nconsole.logger.debuglog".toList) ∧
    process_content ("App".toList)
        ("import \x7b createLogger \x7d from '@/lib/utils/logger';\n\nconsole.logger.debuglog".toList) =
      ("import \x7b createLogger \x7d from '@/lib/utils/logger';\n\nlogger.debugger.debuglog".toList) := by
  refine ⟨by decide, by decide, by decide⟩

/-- Claim C2, counterexample: the two-line statement
`console.log(` / `  'hi', x);` is classified REPLACE (the needs-logger flag
is set), but the output keeps only the rewritten first line; the argument
text `'hi', x` of the continuation line is absent from the output, so the
argument text is not preserved verbatim. -/
theorem c2_counterexample :
    (processLines [("console.log(".toList), ("  'hi', x);".toList)]).1 =
      [("logger.debug(".toList)] ∧
    (processLines [("console.log(".toList), ("  'hi', x);".toList)]).2 = true ∧
    containsSub (joinNl (processLines [("console.log(".toList), ("  'hi', x);".toList)]).1)
      ("'hi', x".toList) = false := by
  refine ⟨by decide, by decide, by decide⟩

/-- Claim C2 (amended): for a statement classified REPLACE the output
contains only the statement's first line, rewritten by substituting every
occurrence of `console.log` with `logger.debug` (all other characters of
that first line preserved); the continuation lines of a multi-line REPLACE
statement are dropped, and the needs-logger flag is set. -/
theorem c2_replace_keeps_first_line (l : List Char) (rest : List (List Char))
    (h1 : lineHasConsoleLog l = true)
    (h2 : should_remove_log (stmtFull l rest) = false) :
    (processLines (l :: rest)).1 =
      pyReplace consoleLogPat loggerDebugPat l :: (processLines (stmtTail l rest)).1 ∧
    (processLines (l :: rest)).2 = true := by
  rw [processLines_cons, if_pos h1, if_neg (by simp [h2])]
  exact ⟨rfl, rfl⟩

theorem c2_replace_keeps_first_line_witness :
    (processLines [("console.log('ok', value);".toList)]).1 =
      pyReplace consoleLogPat loggerDebugPat ("console.log('ok', value);".toList) ::
        (processLines (stmtTail ("console.log('ok', value);".toList) [])).1 ∧
    (processLines [("console.log('ok', value);".toList)]).2 = true :=
  c2_replace_keeps_first_line ("console.log('ok', value);".toList) []
    (by decide) (by decide)

/-- Claim C3: a statement classified REMOVE spanning the opening line, the
intermediate lines without a closing parenthesis and the first closing line
disappears from the output as a whole, and the lines after the span are
processed exactly as they would be on their own.  The first conjunct is the
`process_file` loop of `scripts/cleanup_logs.py`; the second is the marking
path of `clean_file` of `clean_all_emoji_logs.py`. -/
theorem c3_remove_span (la ca : List Char) (pre rest2 : List (List Char))
    (lb cb : List Char) (pre2 rest2b : List (List Char))
    (h1 : lineHasConsoleLog la = true)
    (hm : isMultiStart la = true)
    (hpre : ∀ x ∈ pre, noCloseParen x = true)
    (hcl : noCloseParen ca = false)
    (hr : should_remove_log (joinNl (la :: (pre ++ [ca]))) = true)
    (h1b : cleanTarget lb = true)
    (h2b : endsClosed lb = false)
    (hpre2 : ∀ x ∈ pre2, lineHasClose2 x = false)
    (hcl2 : lineHasClose2 cb = true) :
    (processLines (la :: (pre ++ ca :: rest2))).1 = (processLines rest2).1 ∧
    cleanAllVisible (lb :: (pre2 ++ cb :: rest2b)) = cleanAllVisible rest2b := by
  constructor
  · obtain ⟨htw, hdw⟩ := takeWhile_middle noCloseParen pre ca rest2 hpre hcl
    have hfull : stmtFull la (pre ++ ca :: rest2) = joinNl (la :: (pre ++ [ca])) := by
      unfold stmtFull
      rw [if_pos hm, htw, hdw]
      simp
    have htail : stmtTail la (pre ++ ca :: rest2) = rest2 := by
      unfold stmtTail
      rw [if_pos hm, hdw]
      rfl
    rw [processLines_cons, if_pos h1, hfull, htail, if_pos hr]
  · obtain ⟨htw2, hdw2⟩ := takeWhile_middle (fun x => !(lineHasClose2 x)) pre2 cb rest2b
      (fun x hx => by simp [hpre2 x hx]) (by simp [hcl2])
    have hloop : cleanAllLoop (lb :: (pre2 ++ cb :: rest2b)) =
        cleanAllLoop (List.replicate (pre2.length + 1) markerLine ++ rest2b) := by
      rw [cleanAllLoop_cons, if_pos h1b, if_neg (by simp [h2b]), htw2, hdw2]
      rw [if_neg (by simp)]
      rfl
    unfold cleanAllVisible
    rw [hloop]
    have h9 := cleanAllVisible_replicate (pre2.length + 1) rest2b
    unfold cleanAllVisible at h9
    exact h9

theorem c3_remove_span_witness :
    (processLines [("console.log('DEBUG',".toList), (" 1,".toList), (" 2);".toList),
        ("after".toList)]).1 = (processLines [("after".toList)]).1 ∧
    cleanAllVisible [("console.log('€".toList), ("mid".toList), ("done);".toList),
        ("tail".toList)] = cleanAllVisible [("tail".toList)] :=
  c3_remove_span ("console.log('DEBUG',".toList) (" 2);".toList) [(" 1,".toList)]
    [("after".toList)] ("console.log('€".toList) ("done);".toList) [("mid".toList)]
    [("tail".toList)] (by decide) (by decide) (by decide) (by decide) (by decide)
    (by decide) (by decide) (by decide) (by decide)

/-- Claim C4, counterexample: on the file
`console.log('DEBUG')\na\n\n\nb` the removal of the first line leaves the
pre-collapse text `a\n\n\nb`, which contains a run of exactly 2 consecutive
blank lines; the claim says such a run is left untouched, but the final
output is `a\n\nb`, with the run shortened to 1 blank line. -/
theorem c4_counterexample :
    (processLines (splitNl ("console.log('DEBUG')\na\n\n\nb".toList))).1 =
      [("a".toList), [], [], ("b".toList)] ∧
    joinNl [("a".toList), [], [], ("b".toList)] = ("a\n\n\nb".toList) ∧
    process_content ("App".toList) ("console.log('DEBUG')\na\n\n\nb".toList) =
      ("a\n\nb".toList) := by
  refine ⟨by decide, by decide, by decide⟩

theorem c4_blank_run_collapse_witness :
    collapse (("x".toList) ++ List.replicate 4 '\n' ++ ("y".toList)) =
      collapse ("x".toList) ++ List.replicate (if 3 ≤ 4 then 2 else 4) '\n' ++
        collapse ("y".toList) :=
  c4_blank_run_collapse ("x".toList) ("y".toList) 4 (by decide) (by decide)

/-- Claim C5, counterexample: the one-line file `__REMOVE__` contains no
matching logging call at all, yet `clean_file` of
`clean_all_emoji_logs.py` deletes the line through its final marker filter,
so the output is empty and the file is rewritten. -/
theorem c5_counterexample :
    (∀ l ∈ splitNl ("__REMOVE__".toList), cleanTarget l = false) ∧
    cleanAll_content ("__REMOVE__".toList) = [] ∧
    cleanAll_writes ("__REMOVE__".toList) = true := by
  refine ⟨by decide, by decide, by decide⟩

/-- Claim C5 (amended): a file without the substring `console.log` is left
exactly unchanged and never written by `process_file`; a file none of whose
lines is an emoji console statement or the literal `__REMOVE__` is left
exactly unchanged and not written by `clean_file`; and in general either
transform writes only when the reconstructed text differs from the
original. -/
theorem c5_no_match_no_write (stem c c2 : List Char)
    (h1 : containsSub c consoleLogPat = false)
    (h2 : ∀ l ∈ splitNl c2, cleanTarget l = false ∧ (l == markerLine) = false) :
    process_content stem c = c ∧
    (∀ d, process_writes stem c d = false) ∧
    cleanAll_content c2 = c2 ∧
    cleanAll_writes c2 = false ∧
    (∀ st c3 d, process_writes st c3 d = true → process_content st c3 ≠ c3) ∧
    (∀ c4, cleanAll_writes c4 = true → cleanAll_content c4 ≠ c4) := by
  have p1 : process_content stem c = c := by
    unfold process_content
    rw [h1]
    rfl
  have hloop : ∀ ls : List (List Char),
      (∀ l ∈ ls, cleanTarget l = false ∧ (l == markerLine) = false) →
      cleanAllVisible ls = ls := by
    intro ls
    induction ls with
    | nil => intro _; rfl
    | cons x xs ih =>
      intro h
      obtain ⟨hx1, hx2⟩ := h x (by simp)
      rw [cleanAllVisible_keep x xs hx1 hx2, ih (fun y hy => h y (by simp [hy]))]
  have p3 : cleanAll_content c2 = c2 := by
    unfold cleanAll_content
    rw [hloop (splitNl c2) h2, joinNl_splitNl]
  refine ⟨p1, ?_, p3, ?_, ?_, ?_⟩
  · intro d
    unfold process_writes
    rw [p1]
    simp
  · unfold cleanAll_writes
    rw [p3]
    simp
  · intro st c3 d hw
    unfold process_writes at hw
    simp only [Bool.and_eq_true, bne_iff_ne, ne_eq] at hw
    exact hw.2
  · intro c4 hw
    unfold cleanAll_writes at hw
    simpa using hw

theorem c5_no_match_no_write_witness :
    process_content ("App".toList) ("let x = 1;\nconsole.warn('hi');".toList) =
      ("let x = 1;\nconsole.warn('hi');".toList) ∧
    (∀ d, process_writes ("App".toList) ("let x = 1;\nconsole.warn('hi');".toList) d = false) ∧
    cleanAll_content ("let x = 1;\nconsole.warn('hi');".toList) =
      ("let x = 1;\nconsole.warn('hi');".toList) ∧
    cleanAll_writes ("let x = 1;\nconsole.warn('hi');".toList) = false ∧
    (∀ st c3 d, process_writes st c3 d = true → process_content st c3 ≠ c3) ∧
    (∀ c4, cleanAll_writes c4 = true → cleanAll_content c4 ≠ c4) :=
  c5_no_match_no_write ("App".toList) ("let x = 1;\nconsole.warn('hi');".toList)
    ("let x = 1;\nconsole.warn('hi');".toList) (by decide) (by decide)

/-- Claim C6, counterexample: in `clean_all_emoji_logs.py` the input line
`__REMOVE__` is not recognized as any logging call, yet it does not appear
in the output: the final filter deletes every line equal to the literal
marker. -/
theorem c6_counterexample :
    cleanTarget ("__REMOVE__".toList) = false ∧
    hasConsoleCall ("__REMOVE__".toList) = false ∧
    cleanAll_content ("a\n__REMOVE__\nb".toList) = ("a\nb".toList) := by
  refine ⟨by decide, by decide, by decide⟩

/-- Claim C6 (amended): every input line that is not recognized as (part
of) a logging statement — and, for `clean_all_emoji_logs.py`, is not the
literal `__REMOVE__` — appears byte-identical in the statement-phase output
of both transforms, in its original relative position. -/
theorem c6_nonlog_lines_preserved (pre : List (List Char)) (l : List Char)
    (rest : List (List Char))
    (hpre : ∀ x ∈ pre,
      cleanTarget x = false ∧ (x == markerLine) = false ∧ lineHasConsoleLog x = false)
    (hl1 : cleanTarget l = false) (hl2 : (l == markerLine) = false)
    (hl3 : lineHasConsoleLog l = false) :
    cleanAllVisible (pre ++ l :: rest) = pre ++ l :: cleanAllVisible rest ∧
    (processLines (pre ++ l :: rest)).1 = pre ++ l :: (processLines rest).1 := by
  induction pre with
  | nil =>
    constructor
    · simpa using cleanAllVisible_keep l rest hl1 hl2
    · rw [List.nil_append, processLines_cons, if_neg (by simp [hl3])]
      simp
  | cons x pre' ih =>
    obtain ⟨hx1, hx2, hx3⟩ := hpre x (by simp)
    obtain ⟨ih1, ih2⟩ := ih (fun y hy => hpre y (by simp [hy]))
    constructor
    · simp only [List.cons_append]
      rw [cleanAllVisible_keep x _ hx1 hx2, ih1]
    · simp only [List.cons_append]
      rw [processLines_cons, if_neg (by simp [hx3])]
      show x :: (processLines (pre' ++ l :: rest)).1 = _
      rw [ih2]

theorem c6_nonlog_lines_preserved_witness :
    cleanAllVisible [("alpha;".toList), ("beta;".toList), ("gamma;".toList)] =
      [("alpha;".toList), ("beta;".toList)] ++ ("gamma;".toList) :: cleanAllVisible [] ∧
    (processLines [("alpha;".toList), ("beta;".toList), ("gamma;".toList)]).1 =
      [("alpha;".toList), ("beta;".toList)] ++ ("gamma;".toList) :: (processLines []).1 :=
  c6_nonlog_lines_preserved [("alpha;".toList), ("beta;".toList)] ("gamma;".toList) []
    (by decide) (by decide) (by decide) (by decide)

/-- Claim C7: per-file failure isolation.  The driver maps an independent
attempt over the discovered files, so the outcome list covers every file
(same length), the outcomes of a block of files do not depend on earlier
blocks (the run over an append splits), and a failing file produces a
printed error message that contains the offending path while the run
continues. -/
theorem c7_per_file_isolation :
    (∀ fs gs : List (List Char × Except (List Char) (List Char)),
      runAll (fs ++ gs) = runAll fs ++ runAll gs) ∧
    (∀ fs : List (List Char × Except (List Char) (List Char)),
      (runAll fs).length = fs.length) ∧
    (∀ p e : List Char,
      runCleanFile (p, Except.error e) = FileOutcome.failed (errorLineFor p e) ∧
      containsSub (errorLineFor p e) p = true) := by
  refine ⟨?_, ?_, ?_⟩
  · intro fs gs
    unfold runAll
    exact List.map_append runCleanFile fs gs
  · intro fs
    unfold runAll
    exact List.length_map fs runCleanFile
  · intro p e
    refine ⟨rfl, ?_⟩
    unfold errorLineFor
    have h9 := containsSub_middle ("Error processing ".toList) p ((": ".toList) ++ e)
    simpa [List.append_assoc] using h9

/-- Claim C8, counterexample: in `clean_all_emoji_logs.py`, for the file
whose first line is an emoji console call with an opening parenthesis never
closed before end-of-file, the statement is NOT treated as ending at
end-of-file: only the opening line is dropped and the following line
`hello` survives (had the whole statement been removed, the output would be
empty). -/
theorem c8_counterexample :
    cleanTarget ("console.log('€ a".toList) = true ∧
    endsClosed ("console.log('€ a".toList) = false ∧
    (∀ x ∈ [("hello".toList)], lineHasClose2 x = false) ∧
    cleanAll_content ("console.log('€ a\nhello".toList) = ("hello".toList) := by
  refine ⟨by decide, by decide, by decide, by decide⟩

/-- Claim C8 (amended): both transforms terminate normally on an unclosed
statement (they are total functions).  In `scripts/cleanup_logs.py` the
statement is treated as ending at end-of-file: the accumulated statement is
the whole remaining file and, when classified REMOVE, every remaining line
is removed.  In `clean_all_emoji_logs.py` only the opening line is dropped
and the remaining lines are processed individually. -/
theorem c8_unclosed_statement (la : List Char) (rest : List (List Char))
    (lb : List Char) (restb : List (List Char))
    (h1 : lineHasConsoleLog la = true)
    (hm : isMultiStart la = true)
    (hnc : ∀ x ∈ rest, noCloseParen x = true)
    (hr : should_remove_log (joinNl (la :: rest)) = true)
    (h1b : cleanTarget lb = true)
    (h2b : endsClosed lb = false)
    (hnc2 : ∀ x ∈ restb, lineHasClose2 x = false) :
    (processLines (la :: rest)).1 = [] ∧
    cleanAllLoop (lb :: restb) = cleanAllLoop restb := by
  constructor
  · have hdw : rest.dropWhile noCloseParen = [] :=
      List.dropWhile_eq_nil_iff.mpr (fun x hx => by simp [hnc x hx])
    have htw : rest.takeWhile noCloseParen = rest := by
      have h0 := List.takeWhile_append_dropWhile noCloseParen rest
      rw [hdw, List.append_nil] at h0
      exact h0
    have hfull : stmtFull la rest = joinNl (la :: rest) := by
      unfold stmtFull
      rw [if_pos hm, htw, hdw]
      simp
    have htail : stmtTail la rest = [] := by
      unfold stmtTail
      rw [if_pos hm, hdw]
      rfl
    rw [processLines_cons, if_pos h1, hfull, htail, if_pos hr]
    rfl
  · have hdw2 : restb.dropWhile (fun l2 => !(lineHasClose2 l2)) = [] :=
      List.dropWhile_eq_nil_iff.mpr (fun x hx => by simp [hnc2 x hx])
    rw [cleanAllLoop_cons, if_pos h1b, if_neg (by simp [h2b]), hdw2]
    simp

theorem c8_unclosed_statement_witness :
    (processLines [("console.log('DEBUG".toList), ("mid".toList), ("end".toList)]).1 = [] ∧
    cleanAllLoop [("console.log('€ x".toList), ("hello".toList)] =
      cleanAllLoop [("hello".toList)] :=
  c8_unclosed_statement ("console.log('DEBUG".toList) [("mid".toList), ("end".toList)]
    ("console.log('€ x".toList) [("hello".toList)]
    (by decide) (by decide) (by decide) (by decide) (by decide) (by decide) (by decide)

/-- Claim C9: a line of a warning- or error-level call — it does not
contain the substring `console.log`, is not an emoji console statement of
the clean-all variant, and is not the literal marker — is classified KEEP
by both transforms: it appears byte-identical, in its relative position, in
the loop output, and it does not set the needs-logger flag. -/
theorem c9_warn_error_kept (l : List Char) (rest restb : List (List Char))
    (h1 : lineHasConsoleLog l = false)
    (h2 : cleanTarget l = false)
    (h3 : (l == markerLine) = false) :
    (processLines (l :: rest)).1 = l :: (processLines rest).1 ∧
    (processLines (l :: rest)).2 = (processLines rest).2 ∧
    cleanAllVisible (l :: restb) = l :: cleanAllVisible restb := by
  refine ⟨?_, ?_, cleanAllVisible_keep l restb h2 h3⟩
  · rw [processLines_cons, if_neg (by simp [h1])]
  · rw [processLines_cons, if_neg (by simp [h1])]

theorem c9_warn_error_kept_witness :
    (processLines [("console.warn('low memory');".toList)]).1 =
      ("console.warn('low memory');".toList) :: (processLines []).1 ∧
    (processLines [("console.warn('low memory');".toList)]).2 = (processLines []).2 ∧
    cleanAllVisible [("console.warn('low memory');".toList)] =
      ("console.warn('low memory');".toList) :: cleanAllVisible [] :=
  c9_warn_error_kept ("console.warn('low memory');".toList) [] []
    (by decide) (by decide) (by decide)

/-- Claim C10: when a single-line statement is classified REPLACE, every
occurrence of the substring `console.log` in the line — also one inside a
string literal or comment — is rewritten to `logger.debug`, not only the
call name.  The line is presented as two planted occurrences around blocks
`u`, `v`, `w` that contain no further occurrence (the hypotheses say no
occurrence of the pattern starts inside them). -/
theorem c10_replace_all_occurrences (u v w : List Char) (rest : List (List Char))
    (hms : isMultiStart (u ++ consoleLogPat ++ v ++ consoleLogPat ++ w) = false)
    (hsr : should_remove_log (u ++ consoleLogPat ++ v ++ consoleLogPat ++ w) = false)
    (hu : ∀ k, k < u.length →
      consoleLogPat.isPrefixOf
        (u.drop k ++ (consoleLogPat ++ (v ++ (consoleLogPat ++ w)))) = false)
    (hv : ∀ k, k < v.length →
      consoleLogPat.isPrefixOf (v.drop k ++ (consoleLogPat ++ w)) = false)
    (hw : ∀ k, k < w.length → consoleLogPat.isPrefixOf (w.drop k) = false) :
    (processLines ((u ++ consoleLogPat ++ v ++ consoleLogPat ++ w) :: rest)).1 =
      (u ++ loggerDebugPat ++ v ++ loggerDebugPat ++ w) :: (processLines rest).1 := by
  have hL : (u ++ consoleLogPat ++ v ++ consoleLogPat ++ w) =
      u ++ (consoleLogPat ++ (v ++ (consoleLogPat ++ w))) := by
    simp [List.append_assoc]
  have h1 : lineHasConsoleLog (u ++ consoleLogPat ++ v ++ consoleLogPat ++ w) = true := by
    unfold lineHasConsoleLog
    rw [hL]
    exact containsSub_middle u consoleLogPat (v ++ (consoleLogPat ++ w))
  have hfull : stmtFull (u ++ consoleLogPat ++ v ++ consoleLogPat ++ w) rest =
      (u ++ consoleLogPat ++ v ++ consoleLogPat ++ w) := by
    unfold stmtFull
    rw [if_neg (by simpa using hms)]
  have htail : stmtTail (u ++ consoleLogPat ++ v ++ consoleLogPat ++ w) rest = rest := by
    unfold stmtTail
    rw [if_neg (by simpa using hms)]
  have hline : pyReplace consoleLogPat loggerDebugPat
      (u ++ consoleLogPat ++ v ++ consoleLogPat ++ w) =
      u ++ loggerDebugPat ++ v ++ loggerDebugPat ++ w := by
    rw [hL, pyReplace_append_of_no_hit _ _ u _ hu,
      pyReplace_hit _ _ _ (by decide),
      pyReplace_append_of_no_hit _ _ v _ hv,
      pyReplace_hit _ _ _ (by decide),
      pyReplace_of_no_hit _ _ w hw]
    simp [List.append_assoc]
  rw [processLines_cons, if_pos h1, hfull, if_neg (by simpa using hsr), htail]
  show pyReplace consoleLogPat loggerDebugPat
      (u ++ consoleLogPat ++ v ++ consoleLogPat ++ w) :: (processLines rest).1 = _
  rw [hline]

theorem c10_replace_all_occurrences_witness :
    (processLines [([] ++ consoleLogPat ++ ("('".toList) ++ consoleLogPat ++
        (" was here');".toList))]).1 =
      ([] ++ loggerDebugPat ++ ("('".toList) ++ loggerDebugPat ++
        (" was here');".toList)) :: (processLines []).1 :=
  c10_replace_all_occurrences [] ("('".toList) (" was here');".toList) []
    (by decide) (by decide) (by decide) (by decide) (by decide)
